import Mathlib

/-!
Verification of the smart-store data-preparation and warehouse-load pipeline.

The Python sources are shallowly embedded as Lean definitions over an
in-memory row-set model: a `DF` is a list of column names together with a
list of rows, each row an association list from column name to a cell
value (`Val`).  Numeric cells are modelled as rationals (the pipeline's
statistics — median, mean, standard deviation, quantiles — are exact in
this model), missing cells (`NaN`) as `Val.na`, and text cells as
`Val.str`.

Each embedded function carries a comment pointing at the Python source it
translates.  Where the same Python module defines a function twice, the
later definition shadows the earlier one at call time; the effective
(later) definition keeps the source name and the shadowed one gets a
`_v1` suffix.
-/

namespace SmartStore

/-- A cell value of a row-set: missing (pandas `NaN`), numeric, or text. -/
inductive Val where
  | na : Val
  | num : ℚ → Val
  | str : String → Val
deriving DecidableEq, Repr

/-- A row: an association list from column name to cell value. -/
def Row : Type := List (String × Val)

instance : DecidableEq Row := by
  unfold Row
  infer_instance

/-- A row-set (pandas `DataFrame`): the column list plus the rows. -/
structure DF where
  cols : List String
  rows : List Row
deriving DecidableEq

/-- Look a column up in a row; an absent key reads as missing. -/
def getVal (r : Row) (c : String) : Val :=
  match r with
  | [] => Val.na
  | (c', v) :: rest => if c' = c then v else getVal rest c

/-- Overwrite (or append) one column of a row. -/
def setVal (r : Row) (c : String) (v : Val) : Row :=
  match r with
  | [] => [(c, v)]
  | (c', v') :: rest => if c' = c then (c, v) :: rest else (c', v') :: setVal rest c v

/-- Apply a cell transformation to one column of every row
(`df[col] = f(df[col])` in pandas). -/
def mapCol (df : DF) (c : String) (f : Val → Val) : DF :=
  ⟨df.cols, df.rows.map (fun r => setVal r c (f (getVal r c)))⟩

/-- The values of one column, in row order. -/
def colVals (df : DF) (c : String) : List Val :=
  df.rows.map (fun r => getVal r c)

/-- The numeric entries of a list of cells, in order (pandas drops `NaN`
before computing statistics). -/
def nonNA (vs : List Val) : List ℚ :=
  vs.foldr (fun v acc => match v with | Val.num q => q :: acc | _ => acc) []

/-- The non-missing entries of a list of cells, in order. -/
def nonNAVals (vs : List Val) : List Val :=
  vs.filter (fun v => v ≠ Val.na)

/-! ### Numeric-string parsing (model of `pandas.to_numeric(errors="coerce")`)

`to_numeric` is a library routine; it is modelled here on the value space
the pipeline produces: optional minus sign, then decimal digits with at
most one decimal point.  Any other text coerces to missing. -/

/-- The character for a decimal digit (`0` for out-of-range input). -/
def digitChar : Nat → Char
  | 0 => '0'
  | 1 => '1'
  | 2 => '2'
  | 3 => '3'
  | 4 => '4'
  | 5 => '5'
  | 6 => '6'
  | 7 => '7'
  | 8 => '8'
  | 9 => '9'
  | _ => '0'

/-- The numeric value of a digit character. -/
def digitVal (c : Char) : Nat := c.toNat - 48

/-- Whether a character is a decimal digit. -/
def isDigitCh (c : Char) : Bool := decide (48 ≤ c.toNat) && decide (c.toNat ≤ 57)

/-- Accumulating decimal reader over digit characters. -/
def parseNatAcc (acc : Nat) : List Char → Nat
  | [] => acc
  | c :: cs => parseNatAcc (acc * 10 + digitVal c) cs

/-- Split a character list at the first decimal point, if any. -/
def splitDot : List Char → List Char × Option (List Char)
  | [] => ([], none)
  | c :: cs =>
      if c = '.' then ([], some cs)
      else ((c :: (splitDot cs).1, (splitDot cs).2))

/-- Parse an unsigned decimal literal (integer part, optional fraction). -/
def parseUnsigned (cs : List Char) : Option ℚ :=
  let p := splitDot cs
  match p.2 with
  | none =>
      if cs ≠ [] ∧ cs.all isDigitCh then some ((parseNatAcc 0 cs : ℚ)) else none
  | some frac =>
      if (p.1 ++ frac) ≠ [] ∧ p.1.all isDigitCh ∧ frac.all isDigitCh then
        some ((parseNatAcc 0 p.1 : ℚ) + (parseNatAcc 0 frac : ℚ) / 10 ^ frac.length)
      else none

/-- Parse a signed decimal literal. -/
def parseRatChars (cs : List Char) : Option ℚ :=
  match cs with
  | [] => none
  | c :: rest => if c = '-' then (parseUnsigned rest).map (fun q => -q) else parseUnsigned (c :: rest)

/-- Parse a string as a number, `none` meaning a coercion failure. -/
def parseRatStr (s : String) : Option ℚ := parseRatChars s.data

/-- Model of `pd.to_numeric(v, errors="coerce")` on one cell: numbers pass
through, parsable text becomes numeric, everything else becomes missing. -/
def coerceNumVal : Val → Val
  | Val.na => Val.na
  | Val.num q => Val.num q
  | Val.str s =>
      match parseRatStr s with
      | some q => Val.num q
      | none => Val.na

/-! ### Order statistics (models of pandas `median`, `mean`, `std`, `quantile`, `mode`) -/

/-- Insert into a sorted list of rationals. -/
def insertSorted (x : ℚ) : List ℚ → List ℚ
  | [] => [x]
  | y :: ys => if x ≤ y then x :: y :: ys else y :: insertSorted x ys

/-- Sort a list of rationals ascending (model of numpy's sort). -/
def sortQ (xs : List ℚ) : List ℚ := xs.foldr insertSorted []

/-- Median of the non-missing values: middle element, or the mean of the
two middle elements (pandas `Series.median`); `none` on an empty list. -/
def medianQ (xs : List ℚ) : Option ℚ :=
  let s := sortQ xs
  let n := s.length
  if n = 0 then none
  else if n % 2 = 1 then some (s.getD (n / 2) 0)
  else some ((s.getD (n / 2 - 1) 0 + s.getD (n / 2) 0) / 2)

/-- Mean of a list of rationals (pandas `Series.mean` over the non-missing
values); `none` on an empty list. -/
def meanQ (xs : List ℚ) : Option ℚ :=
  if xs.length = 0 then none else some (xs.sum / xs.length)

/-- Sample variance (pandas `Series.std` squared, `ddof = 1`); `none` with
fewer than two values. -/
def varSampleQ (xs : List ℚ) : Option ℚ :=
  match meanQ xs with
  | none => none
  | some m =>
      if xs.length < 2 then none
      else some ((xs.map (fun x => (x - m) ^ 2)).sum / (xs.length - 1 : ℕ))

/-- Linear-interpolation quantile of the non-missing values (pandas
`Series.quantile`, default interpolation); `none` on an empty list. -/
def quantileQ (p : ℚ) (xs : List ℚ) : Option ℚ :=
  let s := sortQ xs
  let n := s.length
  if n = 0 then none
  else
    let h : ℚ := p * ((n : ℚ) - 1)
    let lo : ℕ := (⌊h⌋).toNat
    let hi : ℕ := (⌈h⌉).toNat
    some (s.getD lo 0 + (h - (lo : ℚ)) * (s.getD hi 0 - s.getD lo 0))

/-- Code-point lexicographic order on character lists (Python's string
ordering). -/
def charListLe : List Char → List Char → Bool
  | [], _ => true
  | _ :: _, [] => false
  | a :: as, b :: bs =>
      if a.toNat < b.toNat then true
      else if b.toNat < a.toNat then false
      else charListLe as bs

/-- A total order on cell values used to pick the smallest candidate when
`Series.mode` has ties (pandas sorts the modes; text columns compare
lexicographically). -/
def valLe (a b : Val) : Bool :=
  match a, b with
  | Val.na, _ => true
  | _, Val.na => false
  | Val.num x, Val.num y => decide (x ≤ y)
  | Val.num _, Val.str _ => true
  | Val.str _, Val.num _ => false
  | Val.str x, Val.str y => charListLe x.data y.data

/-- Multiplicity of a value in a list. -/
def countVal (v : Val) (vs : List Val) : Nat := (vs.filter (fun w => w = v)).length

/-- Model of `Series.mode(dropna=True).iat[0]`: among the non-missing
values with maximal multiplicity, the least one; `none` when no
non-missing value exists. -/
def modeVal (vs : List Val) : Option Val :=
  let cands := nonNAVals vs
  cands.foldl
    (fun best v =>
      match best with
      | none => some v
      | some b =>
          if countVal v cands > countVal b cands then some v
          else if countVal v cands = countVal b cands ∧ valLe v b ∧ v ≠ b then some v
          else best)
    none

/-- Replace a missing cell by a default (pandas `fillna`). -/
def fillNA (m : Val) (v : Val) : Val := if v = Val.na then m else v

/-! ## `src/src/analytics_project/data_prep/prepare_customers.py`

The module defines `remove_duplicates`, `handle_missing_values` and
`remove_outliers` twice; at call time (in `main`) the later definition of
each name is in effect. -/

/-- Keep-first full-row deduplication (pandas `df.drop_duplicates()`);
`seen` accumulates the rows already emitted. -/
def dedupFullAux (seen : List Row) : List Row → List Row
  | [] => []
  | r :: rs => if r ∈ seen then dedupFullAux seen rs else r :: dedupFullAux (r :: seen) rs

/-- Keep-first deduplication on a key column
(pandas `df.drop_duplicates(subset=[k], keep="first")`). -/
def dedupKeyAux (k : String) (seen : List Val) : List Row → List Row
  | [] => []
  | r :: rs =>
      if getVal r k ∈ seen then dedupKeyAux k seen rs
      else r :: dedupKeyAux k (getVal r k :: seen) rs

/-- Shadowed first `remove_duplicates` of `prepare_customers.py`
(lines 104-131): deduplicate on `CustomerID`, keeping the first
occurrence, when the column exists.  (Its trailing pasted save-block is
dead code past the log statements and is not modelled.) -/
def remove_duplicates_customers_v1 (df : DF) : DF :=
  if "CustomerID" ∈ df.cols then ⟨df.cols, dedupKeyAux "CustomerID" [] df.rows⟩
  else df

/-- Effective `remove_duplicates` of `prepare_customers.py`
(lines 140-145, the later definition, which shadows the first):
`df.drop_duplicates()` — exact full-row deduplication. -/
def remove_duplicates_customers (df : DF) : DF :=
  ⟨df.cols, dedupFullAux [] df.rows⟩

/-- Python `str(v)` on a cell as used by `astype(str)`: text passes
through, `NaN` renders as the literal text `nan`.  (Numeric rendering
approximates Python's float `repr`; the pipeline's text columns never
hold numbers when this is applied.) -/
def valToPyStr : Val → String
  | Val.na => "nan"
  | Val.str s => s
  | Val.num q => toString q

/-- Whether a string is empty or whitespace-only (the regex `^\s*$`). -/
def isBlankStr (s : String) : Bool :=
  s.data.all (fun c => c = ' ' ∨ c = '\t' ∨ c = '\n' ∨ c = '\r')

/-- Replace empty/whitespace-only text by missing
(`replace(r"^\s*$", pd.NA, regex=True)`). -/
def blankToNA (v : Val) : Val :=
  match v with
  | Val.str s => if isBlankStr s then Val.na else v
  | _ => v

/-- The resolved preferred-contact column of `prepare_customers.py`
lines 166-170: `Preferred_Contact` if present, else `Preferred Contact`,
else none. -/
def pcCol (df : DF) : Option String :=
  if "Preferred_Contact" ∈ df.cols then some "Preferred_Contact"
  else if "Preferred Contact" ∈ df.cols then some "Preferred Contact"
  else none

/-- `MemberPoints` block of the shadowed first `handle_missing_values`
of `prepare_customers.py` (lines 154-157): numeric coercion in place,
then median fill when any numeric value remains. -/
def hmvMemberPoints (df : DF) : DF :=
  if "MemberPoints" ∈ df.cols then
    match medianQ (nonNA (colVals (mapCol df "MemberPoints" coerceNumVal) "MemberPoints")) with
    | some m => mapCol (mapCol df "MemberPoints" coerceNumVal) "MemberPoints" (fillNA (Val.num m))
    | none => mapCol df "MemberPoints" coerceNumVal
  else df

/-- `MemberStatus` block of the shadowed handler (lines 160-163):
mode fill when a mode exists. -/
def hmvMemberStatus (df : DF) : DF :=
  if "MemberStatus" ∈ df.cols then
    match modeVal (colVals df "MemberStatus") with
    | some m => mapCol df "MemberStatus" (fillNA m)
    | none => df
  else df

/-- Preferred-contact block of the shadowed handler (lines 166-176):
on the resolved column, `astype(str)`, then blank-to-missing, then mode
fill when a mode exists. -/
def hmvPreferredContact (df : DF) : DF :=
  match pcCol df with
  | some c =>
      match modeVal (colVals (mapCol (mapCol df c (fun v => Val.str (valToPyStr v))) c
          blankToNA) c) with
      | some m => mapCol (mapCol (mapCol df c (fun v => Val.str (valToPyStr v))) c blankToNA) c
          (fillNA m)
      | none => mapCol (mapCol df c (fun v => Val.str (valToPyStr v))) c blankToNA
  | none => df

/-- Shadowed first `handle_missing_values` of `prepare_customers.py`
(lines 148-179): the three column blocks in source order. -/
def handle_missing_values_customers_v1 (df : DF) : Option DF :=
  some (hmvPreferredContact (hmvMemberStatus (hmvMemberPoints df)))

/-- Effective `handle_missing_values` of `prepare_customers.py`
(lines 223-225, the later definition, which shadows the first): it logs
the frame's shape and falls off the end, returning Python `None` — no
filling happens.  Modelled as producing no row-set. -/
def handle_missing_values_customers (_df : DF) : Option DF := none

/-- Effective `remove_outliers` of `prepare_customers.py` (lines 255-276,
the later definition, which shadows the z-score logic of lines 227-253):
after logging it executes `return df`; the z-score lines that follow the
`return` are unreachable, so the row-set is returned unchanged. -/
def remove_outliers_customers (df : DF) : DF := df

/-! ## Shared IQR outlier step
(`prepare_products.py` lines 149-170 and `prepare_sales.py` lines 166-185
run the same per-column body). -/

/-- Whether a cell is numeric and within the inclusive bounds; `NaN`
compares false on both sides in pandas, so missing cells fail the mask. -/
def inBoundsVal (lb ub : ℚ) (v : Val) : Bool :=
  match v with
  | Val.num q => decide (lb ≤ q) && decide (q ≤ ub)
  | _ => false

/-- One column of the IQR loop body: coerce the column in place, compute
`Q1`, `Q3`, `IQR = Q3 − Q1`; when `IQR` is missing or zero, `continue`
(keeping the coerced column); otherwise keep the rows inside
`[Q1 − 1.5·IQR, Q3 + 1.5·IQR]`. -/
def iqrStep (df : DF) (col : String) : DF :=
  let df1 := mapCol df col coerceNumVal
  let xs := nonNA (colVals df1 col)
  match quantileQ (1/4) xs, quantileQ (3/4) xs with
  | some q1, some q3 =>
      let iqr := q3 - q1
      if iqr = 0 then df1
      else
        let lb := q1 - 3/2 * iqr
        let ub := q3 + 3/2 * iqr
        ⟨df1.cols, df1.rows.filter (fun r => inBoundsVal lb ub (getVal r col))⟩
  | _, _ => df1

/-! ## `src/src/analytics_project/data_prep/prepare_products.py` -/

/-- `remove_duplicates` of `prepare_products.py` (lines 81-99):
deduplicate on `ProductID` keeping the first occurrence when the column
exists, else exact full-row deduplication. -/
def remove_duplicates_products (df : DF) : DF :=
  if "ProductID" ∈ df.cols then ⟨df.cols, dedupKeyAux "ProductID" [] df.rows⟩
  else ⟨df.cols, dedupFullAux [] df.rows⟩

/-- Candidate numeric columns of the product IQR loop
(`prepare_products.py` line 153), in source order. -/
def productOutlierCandidates : List String :=
  ["Price", "UnitPrice", "Weight", "Length", "Width", "Height"]

/-- `remove_outliers` of `prepare_products.py` (lines 149-170): the IQR
step applied column by column over the present candidates, sequentially
narrowing the surviving rows. -/
def remove_outliers_products (df : DF) : DF :=
  (productOutlierCandidates.filter (fun c => c ∈ df.cols)).foldl iqrStep df

/-- The pandas mask `df[col] >= 0` on one row: true only for a numeric
non-negative cell (`NaN` compares false). -/
def keepCell (col : String) (r : Row) : Bool :=
  match getVal r col with
  | Val.num q => decide (0 ≤ q)
  | _ => false

/-- The pandas mask `df[col] < 0` on one row: true only for a numeric
strictly negative cell. -/
def negCell (col : String) (r : Row) : Bool :=
  match getVal r col with
  | Val.num q => decide (q < 0)
  | _ => false

/-- One column of `validate_data` in `prepare_products.py` (lines
176-179): coerce in place, then keep the rows whose value satisfies
`value >= 0` (missing cells fail the mask). -/
def validateStepProducts (df : DF) (col : String) : DF :=
  if col ∈ df.cols then
    let df1 := mapCol df col coerceNumVal
    ⟨df1.cols, df1.rows.filter (keepCell col)⟩
  else df

/-- `validate_data` of `prepare_products.py` (lines 173-180). -/
def validate_data_products (df : DF) : DF :=
  (["UnitPrice", "Price"]).foldl validateStepProducts df

/-! The `finalize_presentation` of `prepare_products.py` (lines 183-191)
targets `UnitPrice`; it is declared below, after the rendering model. -/

/-! ## `src/src/analytics_project/data_prep/prepare_sales.py` -/

/-- `remove_duplicates` of `prepare_sales.py` (lines 82-87): exact
full-row deduplication. -/
def remove_duplicates_sales (df : DF) : DF :=
  ⟨df.cols, dedupFullAux [] df.rows⟩

/-- `remove_outliers` of `prepare_sales.py` (lines 166-185): the IQR step
over `SaleAmount` then `Quantity`, skipping absent columns. -/
def remove_outliers_sales (df : DF) : DF :=
  ((["SaleAmount", "Quantity"]).filter (fun c => c ∈ df.cols)).foldl iqrStep df

/-- One column of `validate_data` in `prepare_sales.py` (lines 193-199):
coerce in place, count the strictly negative values, and apply the
`value >= 0` filter only when that count is non-zero. -/
def validateStepSales (df : DF) (col : String) : DF :=
  if col ∈ df.cols then
    let df1 := mapCol df col coerceNumVal
    let neg := (df1.rows.filter (negCell col)).length
    if neg ≠ 0 then ⟨df1.cols, df1.rows.filter (keepCell col)⟩
    else df1
  else df

/-- `validate_data` of `prepare_sales.py` (lines 188-202). -/
def validate_data_sales (df : DF) : DF :=
  (["SaleAmount", "Quantity"]).foldl validateStepSales df

/-! ## Fixed two-decimal rendering
(model of `.round(2)` followed by `"{:.2f}".format`; numpy and Python
both round half to even). -/

/-- Round `100·q` to the nearest integer, half to even. -/
def roundHalfEvenCents (q : ℚ) : ℤ :=
  if 100 * q - (⌊100 * q⌋ : ℚ) < 1/2 then ⌊100 * q⌋
  else if 1/2 < 100 * q - (⌊100 * q⌋ : ℚ) then ⌊100 * q⌋ + 1
  else if ⌊100 * q⌋ % 2 = 0 then ⌊100 * q⌋ else ⌊100 * q⌋ + 1

/-- Big-endian decimal digits of a natural number. -/
def natToChars (n : Nat) : List Char :=
  if _h : n < 10 then [digitChar n]
  else natToChars (n / 10) ++ [digitChar (n % 10)]
decreasing_by exact Nat.div_lt_self (by omega) (by omega)

/-- Exactly two decimal digits for a value below one hundred. -/
def twoDigits (m : Nat) : List Char := [digitChar (m / 10), digitChar (m % 10)]

/-- The fixed two-decimal rendering of `n` cents: sign, integer part,
point, two fraction digits. -/
def renderCents (n : ℤ) : List Char :=
  (if n < 0 then ['-'] else []) ++ natToChars (n.natAbs / 100) ++ '.' :: twoDigits (n.natAbs % 100)

/-- Model of `"{:.2f}".format(q)`. -/
def formatFixed2 (q : ℚ) : String := ⟨renderCents (roundHalfEvenCents q)⟩

/-- The numeric content of a coerced cell with missing defaulted to `0`
(`.fillna(0)` after the coercion). -/
def numOrZero : Val → ℚ
  | Val.num q => q
  | _ => 0

/-- One cell of `finalize_presentation`
(`prepare_products.py` lines 188-190, `prepare_sales.py` lines 210-213):
`pd.to_numeric(·, errors="coerce").fillna(0).round(2)` then
`"{:.2f}".format`. -/
def finalizeCell (v : Val) : Val :=
  Val.str (formatFixed2 ((roundHalfEvenCents (numOrZero (coerceNumVal v)) : ℚ) / 100))

/-- `finalize_presentation` of `prepare_products.py` (lines 183-191):
render `UnitPrice` when present. -/
def finalize_presentation_products (df : DF) : DF :=
  if "UnitPrice" ∈ df.cols then mapCol df "UnitPrice" finalizeCell else df

/-- The monetary/percentage columns of `finalize_presentation` in
`prepare_sales.py` (line 210), in source order. -/
def salesMoneyCols : List String := ["SaleAmount", "PercentDiscount", "SaleFinal"]

/-- `finalize_presentation` of `prepare_sales.py` (lines 205-214): render
each present monetary/percentage column. -/
def finalize_presentation_sales (df : DF) : DF :=
  salesMoneyCols.foldl (fun d c => if c ∈ d.cols then mapCol d c finalizeCell else d) df

/-- Apply a cell transformation to a list of columns of one row, in
order (the row-level view of a sequence of `mapCol`s). -/
def applyCols (cols : List String) (f : Val → Val) (r : Row) : Row :=
  cols.foldl (fun r2 c => setVal r2 c (f (getVal r2 c))) r

/-- Whether a row already holds a value for a column. -/
def containsKey (r : Row) (c : String) : Bool :=
  match r with
  | [] => false
  | (c2, _) :: rest => if c2 = c then true else containsKey rest c

/-! ## `load_data_to_db` of `src/src/analytics_project/etl_to_dw.py` (lines 172-216)

The sink is the abstract relational sink of the specification
(`execute(ddl)`, `bulk_insert`, `commit`, close-without-commit): work
performed on a connection is staged and becomes the warehouse's committed
state only at `commit`; closing without commit discards the staged work.
Each fallible step of the loader (schema reset, schema creation, the CSV
reads, and the three bulk insertions) is given a success flag in
`LoadEnv`; a `False` flag raises at that step, and the `try/finally`
closes the connection on every path while re-raising the exception. -/

/-- Events observable at the sink, in execution order. -/
inductive Ev where
  | evReset : Ev
  | evCreate : Ev
  | evInsCustomers : Ev
  | evInsProducts : Ev
  | evInsSales : Ev
  | evCommit : Ev
  | evClose : Ev
deriving DecidableEq, Repr

/-- The committed contents of the three warehouse tables. -/
structure Warehouse where
  custRows : List Row
  prodRows : List Row
  saleRows : List Row
deriving DecidableEq

/-- Which fallible steps of one load run succeed. -/
structure LoadEnv where
  resetOk : Bool
  createOk : Bool
  readOk : Bool
  customersOk : Bool
  productsOk : Bool
  salesOk : Bool

/-- An open connection: the state committed so far, the staged
(uncommitted) table contents, and the event trace. -/
structure Sess where
  committed : Warehouse
  staged : Warehouse
  trace : List Ev

/-- Run one sink operation: on success record the event and update the
staged state; on failure raise, carrying the session to the `finally`
block. -/
def runOp (s : Sess) (ok : Bool) (e : Ev) (f : Warehouse → Warehouse) : Except Sess Sess :=
  if ok then Except.ok ⟨s.committed, f s.staged, s.trace ++ [e]⟩ else Except.error s

/-- Reading the prepared CSVs touches no sink state, but an exception
aborts the run. -/
def runRead (s : Sess) (ok : Bool) : Except Sess Sess :=
  if ok then Except.ok s else Except.error s

/-- The `try` block of `load_data_to_db`: drop tables, create tables,
read the three CSVs, insert customers, then products, then sales, then
commit. -/
def loadBody (env : LoadEnv) (cs ps ss : List Row) (s : Sess) : Except Sess Sess :=
  Except.bind (runOp s env.resetOk Ev.evReset (fun _ => ⟨[], [], []⟩)) fun s =>
  Except.bind (runOp s env.createOk Ev.evCreate id) fun s =>
  Except.bind (runRead s env.readOk) fun s =>
  Except.bind (runOp s env.customersOk Ev.evInsCustomers
      (fun w => ⟨w.custRows ++ cs, w.prodRows, w.saleRows⟩)) fun s =>
  Except.bind (runOp s env.productsOk Ev.evInsProducts
      (fun w => ⟨w.custRows, w.prodRows ++ ps, w.saleRows⟩)) fun s =>
  Except.bind (runOp s env.salesOk Ev.evInsSales
      (fun w => ⟨w.custRows, w.prodRows, w.saleRows ++ ss⟩)) fun s =>
  Except.ok ⟨s.staged, s.staged, s.trace ++ [Ev.evCommit]⟩

/-- Outcome of one load run: final committed warehouse, full event trace,
and whether an error propagated to the caller. -/
structure LoadResult where
  warehouse : Warehouse
  trace : List Ev
  errored : Bool
deriving DecidableEq

/-- `load_data_to_db` over the abstract sink: run the `try` block from
the prior committed state, then the `finally` close; an uncommitted
session is discarded by the close and the exception is re-raised to the
caller. -/
def load_data_to_db (env : LoadEnv) (prior : Warehouse) (cs ps ss : List Row) : LoadResult :=
  match loadBody env cs ps ss ⟨prior, prior, []⟩ with
  | Except.ok s => ⟨s.committed, s.trace ++ [Ev.evClose], false⟩
  | Except.error s => ⟨s.committed, s.trace ++ [Ev.evClose], true⟩

/-! ## Warehouse delete-all sequences -/

/-- Table-deletion order of `delete_existing_records` in
`src/src/analytics_project/etl_to_dw.py` lines 148-154. -/
def delete_existing_records_etl : List String :=
  ["fact_sales", "dim_customer", "dim_product", "dim_store", "dim_date"]

/-- Table-deletion order of `delete_existing_records` in
`src/datawarehouse/db01_setup.py` lines 59-63. -/
def delete_existing_records_db01 : List String :=
  ["customer", "product", "sale"]

/-! ## Helper lemmas on the row-set model -/

theorem getVal_setVal_self (r : Row) (c : String) (v : Val) :
    getVal (setVal r c v) c = v := by
  induction r with
  | nil => simp [getVal, setVal]
  | cons p rest ih =>
      obtain ⟨c2, v2⟩ := p
      simp only [setVal]
      by_cases h2 : c2 = c
      · rw [if_pos h2]
        simp [getVal]
      · rw [if_neg h2]
        simp only [getVal]
        rw [if_neg h2]
        exact ih

theorem getVal_setVal_ne (r : Row) (c c1 : String) (v : Val) (h : c1 ≠ c) :
    getVal (setVal r c1 v) c = getVal r c := by
  induction r with
  | nil => simp [getVal, setVal, h]
  | cons p rest ih =>
      obtain ⟨c2, v2⟩ := p
      simp only [setVal]
      by_cases h2 : c2 = c1
      · subst h2
        rw [if_pos rfl]
        simp only [getVal]
        rw [if_neg (by intro hx; exact h hx), if_neg (by intro hx; exact h hx)]
      · rw [if_neg h2]
        simp only [getVal]
        by_cases h3 : c2 = c
        · rw [if_pos h3, if_pos h3]
        · rw [if_neg h3, if_neg h3]
          exact ih

theorem colVals_mapCol_self (df : DF) (c : String) (f : Val → Val) :
    colVals (mapCol df c f) c = (colVals df c).map f := by
  simp [colVals, mapCol, getVal_setVal_self]

theorem colVals_mapCol_ne (df : DF) (c c1 : String) (f : Val → Val) (h : c1 ≠ c) :
    colVals (mapCol df c1 f) c = colVals df c := by
  simp [colVals, mapCol, getVal_setVal_ne _ _ _ _ h]

theorem cols_hmvMemberPoints (df : DF) : (hmvMemberPoints df).cols = df.cols := by
  unfold hmvMemberPoints
  split
  · split <;> rfl
  · rfl

theorem cols_hmvMemberStatus (df : DF) : (hmvMemberStatus df).cols = df.cols := by
  unfold hmvMemberStatus
  split
  · split <;> rfl
  · rfl

theorem colVals_hmvMemberPoints_ne (df : DF) (c : String) (h : "MemberPoints" ≠ c) :
    colVals (hmvMemberPoints df) c = colVals df c := by
  unfold hmvMemberPoints
  split
  · split <;> simp [colVals_mapCol_ne _ _ _ _ h]
  · rfl

theorem colVals_hmvMemberStatus_ne (df : DF) (c : String) (h : "MemberStatus" ≠ c) :
    colVals (hmvMemberStatus df) c = colVals df c := by
  unfold hmvMemberStatus
  split
  · split <;> simp [colVals_mapCol_ne _ _ _ _ h]
  · rfl

theorem pcCol_congr (d d1 : DF) (h : d.cols = d1.cols) : pcCol d = pcCol d1 := by
  simp [pcCol, h]

/-- The preferred-contact block transforms the resolved column exactly by
`astype(str)`, blank-to-missing, then mode fill over the transformed
values. -/
theorem hmvPreferredContact_colVals (df : DF) (c : String) (hpc : pcCol df = some c) :
    colVals (hmvPreferredContact df) c =
      match modeVal ((colVals df c).map (fun v => blankToNA (Val.str (valToPyStr v)))) with
      | some m =>
          ((colVals df c).map (fun v => blankToNA (Val.str (valToPyStr v)))).map (fillNA m)
      | none => (colVals df c).map (fun v => blankToNA (Val.str (valToPyStr v))) := by
  unfold hmvPreferredContact
  simp only [hpc]
  have hb : colVals (mapCol (mapCol df c (fun v => Val.str (valToPyStr v))) c blankToNA) c =
      (colVals df c).map (fun v => blankToNA (Val.str (valToPyStr v))) := by
    rw [colVals_mapCol_self, colVals_mapCol_self, List.map_map]
    rfl
  rw [hb]
  cases hm : modeVal ((colVals df c).map (fun v => blankToNA (Val.str (valToPyStr v)))) with
  | some m => rw [colVals_mapCol_self, hb]
  | none => exact hb

/-! ### Lemmas for the fixed two-decimal rendering and its idempotence -/

theorem parseNatAcc_nil (acc : Nat) : parseNatAcc acc [] = acc := rfl

theorem parseNatAcc_cons (acc : Nat) (c : Char) (cs : List Char) :
    parseNatAcc acc (c :: cs) = parseNatAcc (acc * 10 + digitVal c) cs := rfl

theorem digitVal_digitChar (d : Nat) (h : d < 10) : digitVal (digitChar d) = d := by
  interval_cases d <;> decide

theorem isDigitCh_digitChar (d : Nat) (h : d < 10) : isDigitCh (digitChar d) = true := by
  interval_cases d <;> decide

theorem parseNatAcc_append (xs ys : List Char) (acc : Nat) :
    parseNatAcc acc (xs ++ ys) = parseNatAcc (parseNatAcc acc xs) ys := by
  induction xs generalizing acc with
  | nil => rfl
  | cons c cs ih => rw [List.cons_append, parseNatAcc_cons, parseNatAcc_cons]; exact ih _

theorem natToChars_ne_nil (n : Nat) : natToChars n ≠ [] := by
  unfold natToChars
  split
  · simp
  · simp

theorem natToChars_digits (n : Nat) : ∀ c ∈ natToChars n, isDigitCh c = true := by
  induction n using Nat.strong_induction_on with
  | _ n ih =>
      unfold natToChars
      split
      · intro c hc
        simp only [List.mem_singleton] at hc
        subst hc
        exact isDigitCh_digitChar n (by omega)
      · intro c hc
        rw [List.mem_append] at hc
        rcases hc with hc | hc
        · exact ih (n / 10) (Nat.div_lt_self (by omega) (by omega)) c hc
        · simp only [List.mem_singleton] at hc
          subst hc
          exact isDigitCh_digitChar (n % 10) (Nat.mod_lt _ (by omega))

theorem parseNatAcc_natToChars (n : Nat) :
    ∀ acc, parseNatAcc acc (natToChars n) = acc * 10 ^ (natToChars n).length + n := by
  induction n using Nat.strong_induction_on with
  | _ n ih =>
      intro acc
      unfold natToChars
      split
      · next h =>
          rw [parseNatAcc_cons, parseNatAcc_nil]
          simp only [List.length_singleton]
          rw [digitVal_digitChar n h]
          ring
      · next h =>
          rw [parseNatAcc_append]
          rw [ih (n / 10) (Nat.div_lt_self (by omega) (by omega))]
          rw [parseNatAcc_cons, parseNatAcc_nil]
          simp only [List.length_append, List.length_singleton]
          rw [digitVal_digitChar (n % 10) (Nat.mod_lt _ (by omega))]
          rw [pow_succ]
          have hm := Nat.div_add_mod n 10
          ring_nf
          omega

theorem splitDot_nil : splitDot [] = ([], none) := rfl

theorem splitDot_cons (c : Char) (cs : List Char) :
    splitDot (c :: cs) =
      if c = '.' then ([], some cs)
      else ((c :: (splitDot cs).1, (splitDot cs).2)) := rfl

theorem splitDot_no_dot_append (xs ys : List Char) (h : ∀ c ∈ xs, c ≠ '.') :
    splitDot (xs ++ '.' :: ys) = (xs, some ys) := by
  induction xs with
  | nil => rw [List.nil_append, splitDot_cons, if_pos rfl]
  | cons c cs ih =>
      rw [List.cons_append, splitDot_cons, if_neg (h c (by simp)),
        ih (fun d hd => h d (by simp [hd]))]

theorem isDigitCh_ne_dot (c : Char) (h : isDigitCh c = true) : c ≠ '.' := by
  intro he
  subst he
  simp [isDigitCh] at h

theorem isDigitCh_ne_minus (c : Char) (h : isDigitCh c = true) : c ≠ '-' := by
  intro he
  subst he
  simp [isDigitCh] at h

theorem twoDigits_parse (m : Nat) (h : m < 100) : parseNatAcc 0 (twoDigits m) = m := by
  unfold twoDigits
  rw [parseNatAcc_cons, parseNatAcc_cons, parseNatAcc_nil]
  rw [digitVal_digitChar (m / 10) (by omega), digitVal_digitChar (m % 10) (by omega)]
  omega

theorem twoDigits_digits (m : Nat) (h : m < 100) : ∀ c ∈ twoDigits m, isDigitCh c = true := by
  intro c hc
  simp only [twoDigits, List.mem_cons, List.not_mem_nil, or_false] at hc
  rcases hc with rfl | rfl
  · exact isDigitCh_digitChar (m / 10) (by omega)
  · exact isDigitCh_digitChar (m % 10) (by omega)


theorem coerceNumVal_str (s : String) :
    coerceNumVal (Val.str s) =
      (match parseRatStr s with
       | some q => Val.num q
       | none => Val.na) := rfl

theorem parseRatChars_cons (c : Char) (cs : List Char) :
    parseRatChars (c :: cs) =
      if c = '-' then (parseUnsigned cs).map (fun q => -q) else parseUnsigned (c :: cs) := rfl

theorem parseUnsigned_render (a m : Nat) (hm : m < 100) :
    parseUnsigned (natToChars a ++ '.' :: twoDigits m) =
      some ((a : ℚ) + (m : ℚ) / 100) := by
  unfold parseUnsigned
  rw [splitDot_no_dot_append _ _ (fun c hc => isDigitCh_ne_dot c (natToChars_digits a c hc))]
  simp only []
  rw [if_pos ?_]
  · have h2 : (twoDigits m).length = 2 := rfl
    rw [twoDigits_parse m hm, parseNatAcc_natToChars a 0, h2]
    norm_num
  · refine ⟨by simp [natToChars_ne_nil], ?_, ?_⟩
    · exact List.all_eq_true.mpr (fun c hc => natToChars_digits a c hc)
    · exact List.all_eq_true.mpr (fun c hc => twoDigits_digits m hm c hc)

theorem natAbs_cast_div_add (A : Nat) :
    ((A / 100 : ℕ) : ℚ) + ((A % 100 : ℕ) : ℚ) / 100 = (A : ℚ) / 100 := by
  have h100 := Nat.div_add_mod A 100
  have hc : ((100 * (A / 100) + A % 100 : ℕ) : ℚ) = (A : ℚ) := by exact_mod_cast congrArg Nat.cast h100
  push_cast at hc
  field_simp
  linarith

theorem parseRatChars_renderCents (n : ℤ) :
    parseRatChars (renderCents n) = some ((n : ℚ) / 100) := by
  unfold renderCents
  by_cases hn : n < 0
  · rw [if_pos hn]
    show parseRatChars ('-' :: (natToChars (n.natAbs / 100) ++ '.' :: twoDigits (n.natAbs % 100))) =
      some ((n : ℚ) / 100)
    rw [parseRatChars_cons, if_pos rfl]
    rw [parseUnsigned_render _ _ (Nat.mod_lt _ (by omega))]
    rw [natAbs_cast_div_add]
    have hA : ((n.natAbs : ℕ) : ℚ) = -(n : ℚ) := by
      rw [Int.cast_natAbs]
      exact_mod_cast abs_of_neg hn
    rw [hA]
    simp [Option.map]
    ring
  · rw [if_neg hn, List.nil_append]
    obtain ⟨c, cs1, hcc⟩ := List.exists_cons_of_ne_nil (natToChars_ne_nil (n.natAbs / 100))
    have hdig : isDigitCh c = true := by
      apply natToChars_digits (n.natAbs / 100)
      rw [hcc]
      simp
    rw [hcc, List.cons_append, parseRatChars_cons, if_neg (isDigitCh_ne_minus c hdig),
      ← List.cons_append, ← hcc]
    rw [parseUnsigned_render _ _ (Nat.mod_lt _ (by omega))]
    rw [natAbs_cast_div_add]
    have hA : ((n.natAbs : ℕ) : ℚ) = (n : ℚ) := by
      rw [Int.cast_natAbs]
      exact_mod_cast abs_of_nonneg (le_of_not_lt hn)
    rw [hA]

theorem roundHalfEvenCents_intdiv (n : ℤ) : roundHalfEvenCents ((n : ℚ) / 100) = n := by
  unfold roundHalfEvenCents
  have h1 : (100 : ℚ) * ((n : ℚ) / 100) = (n : ℚ) := by field_simp
  rw [h1, Int.floor_intCast, if_pos (by norm_num)]

theorem finalizeCell_eq_render (v : Val) :
    finalizeCell v =
      Val.str (String.mk (renderCents (roundHalfEvenCents (numOrZero (coerceNumVal v))))) := by
  unfold finalizeCell formatFixed2
  rw [roundHalfEvenCents_intdiv]

theorem finalizeCell_render_fixed (N : ℤ) :
    finalizeCell (Val.str (String.mk (renderCents N))) = Val.str (String.mk (renderCents N)) := by
  have hp : parseRatStr (String.mk (renderCents N)) = some ((N : ℚ) / 100) :=
    parseRatChars_renderCents N
  rw [finalizeCell_eq_render, coerceNumVal_str, hp]
  show Val.str (String.mk (renderCents (roundHalfEvenCents (numOrZero (Val.num ((N : ℚ) / 100)))))) = _
  rw [show numOrZero (Val.num ((N : ℚ) / 100)) = (N : ℚ) / 100 from rfl]
  rw [roundHalfEvenCents_intdiv]

theorem finalizeCell_idem (v : Val) : finalizeCell (finalizeCell v) = finalizeCell v := by
  rw [finalizeCell_eq_render v]
  exact finalizeCell_render_fixed _


theorem setVal_setVal_self (r : Row) (c : String) (v w : Val) :
    setVal (setVal r c v) c w = setVal r c w := by
  induction r with
  | nil => simp [setVal]
  | cons p rest ih =>
      obtain ⟨c2, v2⟩ := p
      simp only [setVal]
      by_cases h2 : c2 = c
      · rw [if_pos h2]
        simp [setVal, h2]
      · rw [if_neg h2]
        simp only [setVal]
        rw [if_neg h2, if_neg h2]
        simp [ih]

theorem containsKey_setVal_self (r : Row) (c : String) (v : Val) :
    containsKey (setVal r c v) c = true := by
  induction r with
  | nil => simp [setVal, containsKey]
  | cons p rest ih =>
      obtain ⟨c2, v2⟩ := p
      simp only [setVal]
      by_cases h2 : c2 = c
      · rw [if_pos h2]
        simp [containsKey]
      · rw [if_neg h2]
        simp [containsKey, h2, ih]

theorem containsKey_setVal_mono (r : Row) (c d : String) (w : Val)
    (h : containsKey r c = true) : containsKey (setVal r d w) c = true := by
  induction r with
  | nil => simp [containsKey] at h
  | cons p rest ih =>
      obtain ⟨c2, v2⟩ := p
      simp only [containsKey] at h
      simp only [setVal]
      by_cases h2 : c2 = d
      · rw [if_pos h2]
        by_cases h3 : c2 = c
        · subst h3
          subst h2
          simp [containsKey]
        · rw [if_neg h3] at h
          simp only [containsKey]
          by_cases h5 : d = c
          · simp [h5]
          · simp [h5, h]
      · rw [if_neg h2]
        by_cases h3 : c2 = c
        · simp [containsKey, h3]
        · rw [if_neg h3] at h
          simp [containsKey, h3, ih h]

theorem setVal_comm_of_contains (r : Row) (c d : String) (v w : Val) (hne : c ≠ d)
    (hk : containsKey r c = true) :
    setVal (setVal r d w) c v = setVal (setVal r c v) d w := by
  induction r with
  | nil => simp [containsKey] at hk
  | cons p rest ih =>
      obtain ⟨c2, v2⟩ := p
      simp only [containsKey] at hk
      by_cases h3 : c2 = c
      · rw [show setVal ((c2, v2) :: rest) d w = (c2, v2) :: setVal rest d w from by
              simp [setVal, h3 ▸ hne]]
        rw [show setVal ((c2, v2) :: setVal rest d w) c v = (c2, v) :: setVal rest d w from by
              simp [setVal, h3]]
        rw [show setVal ((c2, v2) :: rest) c v = (c2, v) :: rest from by
              simp [setVal, h3]]
        rw [show setVal ((c2, v) :: rest) d w = (c2, v) :: setVal rest d w from by
              simp [setVal, h3 ▸ hne]]
      · rw [if_neg h3] at hk
        by_cases h4 : c2 = d
        · rw [show setVal ((c2, v2) :: rest) d w = (c2, w) :: rest from by
                simp [setVal, h4]]
          rw [show setVal ((c2, w) :: rest) c v = (c2, w) :: setVal rest c v from by
                simp [setVal, h3]]
          rw [show setVal ((c2, v2) :: rest) c v = (c2, v2) :: setVal rest c v from by
                simp [setVal, h3]]
          rw [show setVal ((c2, v2) :: setVal rest c v) d w = (c2, w) :: setVal rest c v from by
                simp [setVal, h4]]
        · rw [show setVal ((c2, v2) :: rest) d w = (c2, v2) :: setVal rest d w from by
                simp [setVal, h4]]
          rw [show setVal ((c2, v2) :: setVal rest d w) c v =
                (c2, v2) :: setVal (setVal rest d w) c v from by
                simp [setVal, h3]]
          rw [show setVal ((c2, v2) :: rest) c v = (c2, v2) :: setVal rest c v from by
                simp [setVal, h3]]
          rw [show setVal ((c2, v2) :: setVal rest c v) d w =
                (c2, v2) :: setVal (setVal rest c v) d w from by
                simp [setVal, h4]]
          rw [ih hk]

theorem applyCols_nil (f : Val → Val) (r : Row) : applyCols [] f r = r := rfl

theorem applyCols_cons (c : String) (L : List String) (f : Val → Val) (r : Row) :
    applyCols (c :: L) f r = applyCols L f (setVal r c (f (getVal r c))) := rfl

theorem getVal_applyCols_ne (L : List String) (f : Val → Val) (r : Row) (c : String)
    (h : c ∉ L) : getVal (applyCols L f r) c = getVal r c := by
  induction L generalizing r with
  | nil => rfl
  | cons d L ih =>
      rw [applyCols_cons]
      rw [ih _ (fun hm => h (List.mem_cons_of_mem _ hm))]
      exact getVal_setVal_ne _ _ _ _ (fun hx => h (hx ▸ List.mem_cons_self _ _))

theorem containsKey_applyCols_mono (L : List String) (f : Val → Val) (r : Row) (c : String)
    (h : containsKey r c = true) : containsKey (applyCols L f r) c = true := by
  induction L generalizing r with
  | nil => exact h
  | cons d L ih =>
      rw [applyCols_cons]
      exact ih _ (containsKey_setVal_mono _ _ _ _ h)

theorem applyCols_setVal_comm (L : List String) (f : Val → Val) (r : Row) (c : String)
    (hcl : c ∉ L) (hk : containsKey r c = true) :
    setVal (applyCols L f r) c (f (getVal (applyCols L f r) c)) =
      applyCols L f (setVal r c (f (getVal r c))) := by
  induction L generalizing r with
  | nil => rfl
  | cons d L ih =>
      have hcd : c ≠ d := fun hx => hcl (hx ▸ List.mem_cons_self _ _)
      have hdl : c ∉ L := fun hm => hcl (List.mem_cons_of_mem _ hm)
      rw [applyCols_cons]
      rw [ih _ hdl (containsKey_setVal_mono _ _ _ _ hk)]
      rw [applyCols_cons]
      congr 1
      rw [getVal_setVal_ne _ _ _ _ (Ne.symm hcd)]
      rw [setVal_comm_of_contains _ _ _ _ _ hcd hk]
      congr 2
      exact (getVal_setVal_ne r d c _ hcd).symm

theorem applyCols_idem (L : List String) (f : Val → Val) (hf : ∀ v, f (f v) = f v)
    (hnd : L.Nodup) (r : Row) :
    applyCols L f (applyCols L f r) = applyCols L f r := by
  induction L generalizing r with
  | nil => rfl
  | cons c L ih =>
      have hcl : c ∉ L := (List.nodup_cons.mp hnd).1
      have hnd2 : L.Nodup := (List.nodup_cons.mp hnd).2
      rw [applyCols_cons, applyCols_cons]
      rw [applyCols_setVal_comm L f _ c hcl (containsKey_setVal_self _ _ _)]
      rw [getVal_setVal_self, setVal_setVal_self, hf]
      exact ih hnd2 _

theorem finalize_sales_foldl_char (L : List String) (df : DF) :
    L.foldl (fun d c => if c ∈ d.cols then mapCol d c finalizeCell else d) df =
      ⟨df.cols, df.rows.map (applyCols (L.filter (fun c => c ∈ df.cols)) finalizeCell)⟩ := by
  induction L generalizing df with
  | nil =>
      cases df
      simp only [List.foldl_nil, List.filter_nil,
        show applyCols ([] : List String) finalizeCell = id from rfl, List.map_id]
  | cons c L ih =>
      rw [List.foldl_cons, List.filter_cons]
      by_cases hc : c ∈ df.cols
      · rw [if_pos hc, ih (mapCol df c finalizeCell)]
        rw [if_pos (by simpa using hc)]
        simp only [mapCol, List.map_map]
        congr 1
      · rw [if_neg hc, ih df]
        rw [if_neg (by simpa using hc)]



/-! ## Concrete inputs used by the claim theorems -/

/-- First customer row of the C2 failing input: key 1, points `"50"`. -/
def rowC2a : Row := [("CustomerID", Val.num 1), ("MemberPoints", Val.str "50")]

/-- Second customer row of the C2 failing input: key 1 again, points `"999"`. -/
def rowC2b : Row := [("CustomerID", Val.num 1), ("MemberPoints", Val.str "999")]

/-- C2 failing input: two distinct rows sharing `CustomerID = 1`. -/
def dfC2 : DF := ⟨["CustomerID", "MemberPoints"], [rowC2a, rowC2b]⟩

/-- C4 failing input: four customers, the second with blank points (the
blank fails numeric coercion and must become the median of the rest). -/
def dfC4 : DF :=
  ⟨["CustomerID", "MemberPoints"],
   [[("CustomerID", Val.num 1), ("MemberPoints", Val.str "50")],
    [("CustomerID", Val.num 2), ("MemberPoints", Val.str "")],
    [("CustomerID", Val.num 3), ("MemberPoints", Val.str "100")],
    [("CustomerID", Val.num 4), ("MemberPoints", Val.str "200")]]⟩

/-- What the shadowed handler makes of `dfC4`: points coerced to numbers
and the blank filled with the median `100` of `{50, 100, 200}`. -/
def dfC4filled : DF :=
  ⟨["CustomerID", "MemberPoints"],
   [[("CustomerID", Val.num 1), ("MemberPoints", Val.num 50)],
    [("CustomerID", Val.num 2), ("MemberPoints", Val.num 100)],
    [("CustomerID", Val.num 3), ("MemberPoints", Val.num 100)],
    [("CustomerID", Val.num 4), ("MemberPoints", Val.num 200)]]⟩

/-- C5 failing input: nine members with 10 points and one with 1000. -/
def dfC5 : DF :=
  ⟨["MemberPoints"],
   List.replicate 9 [("MemberPoints", Val.num 10)] ++ [[("MemberPoints", Val.num 1000)]]⟩

/-- The numeric member points of `dfC5`. -/
def ptsC5 : List ℚ := nonNA (colVals dfC5 "MemberPoints")

/-! ## Claim theorems -/

/-- Claim C2 (code bug): on the failing input with two rows sharing
`CustomerID = 1`, the effective customer deduplication (the later
`remove_duplicates`, an exact full-row `drop_duplicates`) keeps both
rows, leaving two rows with the same natural key, whereas the claim (and
the shadowed first definition, which the theorem also evaluates) requires
keeping only the first row per `CustomerID`. -/
theorem c2_customer_dedup_keeps_duplicate_keys :
    remove_duplicates_customers dfC2 = dfC2 ∧
    ((remove_duplicates_customers dfC2).rows.filter
        (fun r => decide (getVal r "CustomerID" = Val.num 1))).length = 2 ∧
    remove_duplicates_customers_v1 dfC2 = ⟨["CustomerID", "MemberPoints"], [rowC2a]⟩ := by
  refine ⟨by decide, by decide, by decide⟩

/-- Claim C4 (code bug): the effective missing-value stage of the
customer pipeline (the later `handle_missing_values`, a logging stub)
returns Python `None`, so no coercion or median fill happens at all; the
shadowed first definition would have produced the claimed result, filling
the blank `MemberPoints` with the median `75` of the remaining values. -/
theorem c4_missing_value_stage_is_stub :
    handle_missing_values_customers dfC4 = none ∧
    handle_missing_values_customers_v1 dfC4 = some dfC4filled := by
  exact ⟨rfl, by decide⟩

/-- Claim C5 (code bug): the effective outlier stage of the customer
pipeline (the later `remove_outliers`, whose z-score lines sit after its
`return df`) returns the row-set unchanged, even though on the failing
input the 1000-point row lies outside `mean ± 2·σ` (equivalently
`(1000 − mean)² > 2²·σ²`, stated over the mean and sample variance the
shadowed z-score logic computes), so the claimed rejection never
happens. -/
theorem c5_outlier_stage_removes_nothing :
    remove_outliers_customers dfC5 = dfC5 ∧
    ((1000 : ℚ) - (meanQ ptsC5).getD 0) ^ 2 > 2 ^ 2 * (varSampleQ ptsC5).getD 0 ∧
    (varSampleQ ptsC5).isSome = true := by
  refine ⟨rfl, ?_, ?_⟩ <;>
    norm_num [ptsC5, dfC5, meanQ, varSampleQ, nonNA, colVals, getVal, List.replicate]

/-- A load environment in which every step succeeds except the sales
bulk insertion. -/
def envSalesFail : LoadEnv := ⟨true, true, true, true, true, false⟩

/-- A load environment in which every step succeeds. -/
def envAllOk : LoadEnv := ⟨true, true, true, true, true, true⟩

/-- A non-empty prior warehouse state used by the loader witnesses. -/
def priorW : Warehouse := ⟨[[("CustomerID", Val.num 7)]], [], []⟩

/-- Claim C1: for every load run (any combination of step failures, any
prior warehouse state, any data), if any of the three bulk insertions
fails then the committed warehouse keeps its prior state, no commit event
occurs, the connection is still closed, and the error is surfaced to the
caller; moreover a commit event can occur only when all three insertions
succeed, and when every step succeeds the run commits exactly the three
datasets without error. -/
theorem c1_no_commit_on_insert_failure (env : LoadEnv) (prior : Warehouse)
    (cs ps ss : List Row) :
    (¬(env.customersOk = true ∧ env.productsOk = true ∧ env.salesOk = true) →
      (load_data_to_db env prior cs ps ss).warehouse = prior ∧
      Ev.evCommit ∉ (load_data_to_db env prior cs ps ss).trace ∧
      Ev.evClose ∈ (load_data_to_db env prior cs ps ss).trace ∧
      (load_data_to_db env prior cs ps ss).errored = true) ∧
    (Ev.evCommit ∈ (load_data_to_db env prior cs ps ss).trace →
      env.customersOk = true ∧ env.productsOk = true ∧ env.salesOk = true) ∧
    ((env.resetOk = true ∧ env.createOk = true ∧ env.readOk = true ∧
      env.customersOk = true ∧ env.productsOk = true ∧ env.salesOk = true) →
      (load_data_to_db env prior cs ps ss).warehouse = ⟨cs, ps, ss⟩ ∧
      Ev.evCommit ∈ (load_data_to_db env prior cs ps ss).trace ∧
      (load_data_to_db env prior cs ps ss).errored = false) := by
  obtain ⟨r, c, rd, a, b, s⟩ := env
  cases r <;> cases c <;> cases rd <;> cases a <;> cases b <;> cases s <;>
    simp [load_data_to_db, loadBody, runOp, runRead, Except.bind]

/-- Witness for C1: with only the sales insertion failing, the run keeps
the prior warehouse, never commits, closes the connection and errors. -/
theorem c1_no_commit_on_insert_failure_witness :
    (load_data_to_db envSalesFail priorW [] [] []).warehouse = priorW ∧
    Ev.evCommit ∉ (load_data_to_db envSalesFail priorW [] [] []).trace ∧
    Ev.evClose ∈ (load_data_to_db envSalesFail priorW [] [] []).trace ∧
    (load_data_to_db envSalesFail priorW [] [] []).errored = true :=
  (c1_no_commit_on_insert_failure envSalesFail priorW [] [] []).1 (by decide)

/-- Claim C3: in every load run (any step failures, any inputs), a sales
(fact) insertion event only ever occurs after both the customer and the
product (dimension) insertion events; the order is fixed inside the
loader and no caller-supplied data or failure pattern can change it. -/
theorem c3_dimensions_inserted_before_facts (env : LoadEnv) (prior : Warehouse)
    (cs ps ss : List Row) :
    ∀ i (h : i < (load_data_to_db env prior cs ps ss).trace.length),
      (load_data_to_db env prior cs ps ss).trace.get ⟨i, h⟩ = Ev.evInsSales →
      Ev.evInsCustomers ∈ (load_data_to_db env prior cs ps ss).trace.take i ∧
      Ev.evInsProducts ∈ (load_data_to_db env prior cs ps ss).trace.take i := by
  obtain ⟨r, c, rd, a, b, s⟩ := env
  cases r <;> cases c <;> cases rd <;> cases a <;> cases b <;> cases s <;>
    simp [load_data_to_db, loadBody, runOp, runRead, Except.bind] <;>
    (intro i h hs; interval_cases i <;> simp_all)

/-- Witness for C3: in the all-success run the sales insertion sits at
index 4 of the trace, after the customer and product insertions. -/
theorem c3_dimensions_inserted_before_facts_witness :
    Ev.evInsCustomers ∈ (load_data_to_db envAllOk priorW [] [] []).trace.take 4 ∧
    Ev.evInsProducts ∈ (load_data_to_db envAllOk priorW [] [] []).trace.take 4 :=
  c3_dimensions_inserted_before_facts envAllOk priorW [] [] [] 4 (by decide) (by decide)

/-- C6 witness input: five products with `UnitPrice` `[8, 9, 10, 11, 1000]`
(the spec's own IQR scenario; `Q1 = 9`, `Q3 = 11`, bounds `[6, 14]`). -/
def dfC6 : DF :=
  ⟨["ProductID", "UnitPrice"],
   [[("ProductID", Val.num 1), ("UnitPrice", Val.num 8)],
    [("ProductID", Val.num 2), ("UnitPrice", Val.num 9)],
    [("ProductID", Val.num 3), ("UnitPrice", Val.num 10)],
    [("ProductID", Val.num 4), ("UnitPrice", Val.num 11)],
    [("ProductID", Val.num 5), ("UnitPrice", Val.num 1000)]]⟩

/-- Claim C6: the IQR outlier rejection of the product and sales
pipelines processes its candidate columns one by one in the fixed source
order (the final two conjuncts tie both pipelines to the sequential fold
of the per-column step over the present candidates), and the per-column
step satisfies: with no numeric values the quantiles are undefined and no
rows are removed; with `IQR = Q3 − Q1 = 0` no rows are removed; otherwise
exactly the rows whose coerced value lies inside
`[Q1 − 1.5·IQR, Q3 + 1.5·IQR]` survive that column. -/
theorem c6_iqr_policy (df : DF) (col : String) :
    (nonNA (colVals (mapCol df col coerceNumVal) col) = [] →
      iqrStep df col = mapCol df col coerceNumVal) ∧
    (∀ q1 q3 : ℚ,
      quantileQ (1/4) (nonNA (colVals (mapCol df col coerceNumVal) col)) = some q1 →
      quantileQ (3/4) (nonNA (colVals (mapCol df col coerceNumVal) col)) = some q3 →
      q3 - q1 = 0 → iqrStep df col = mapCol df col coerceNumVal) ∧
    (∀ q1 q3 : ℚ,
      quantileQ (1/4) (nonNA (colVals (mapCol df col coerceNumVal) col)) = some q1 →
      quantileQ (3/4) (nonNA (colVals (mapCol df col coerceNumVal) col)) = some q3 →
      q3 - q1 ≠ 0 →
      (iqrStep df col).cols = df.cols ∧
      (iqrStep df col).rows = (mapCol df col coerceNumVal).rows.filter
        (fun r => inBoundsVal (q1 - 3/2 * (q3 - q1)) (q3 + 3/2 * (q3 - q1)) (getVal r col))) ∧
    remove_outliers_products df =
      (productOutlierCandidates.filter (fun c => c ∈ df.cols)).foldl iqrStep df ∧
    remove_outliers_sales df =
      ((["SaleAmount", "Quantity"]).filter (fun c => c ∈ df.cols)).foldl iqrStep df := by
  refine ⟨?_, ?_, ?_, rfl, rfl⟩
  · intro h
    simp only [iqrStep]
    rw [h]
    simp [quantileQ, sortQ]
  · intro q1 q3 h1 h2 h0
    simp only [iqrStep]
    rw [h1, h2]
    simp [h0]
  · intro q1 q3 h1 h2 h0
    simp only [iqrStep]
    rw [h1, h2]
    simp [h0, mapCol]

/-- Witness for C6: on the spec's `[8, 9, 10, 11, 1000]` unit prices the
quantiles are `9` and `11`, the IQR is non-zero, and the column step
keeps exactly the in-bounds rows — four of the five, dropping `1000`. -/
theorem c6_iqr_policy_witness :
    quantileQ (1/4) (nonNA (colVals (mapCol dfC6 "UnitPrice" coerceNumVal) "UnitPrice")) =
      some 9 ∧
    quantileQ (3/4) (nonNA (colVals (mapCol dfC6 "UnitPrice" coerceNumVal) "UnitPrice")) =
      some 11 ∧
    (11 : ℚ) - 9 ≠ 0 ∧
    (iqrStep dfC6 "UnitPrice").cols = dfC6.cols ∧
    (iqrStep dfC6 "UnitPrice").rows = (mapCol dfC6 "UnitPrice" coerceNumVal).rows.filter
      (fun r => inBoundsVal (9 - 3/2 * (11 - 9)) (11 + 3/2 * (11 - 9)) (getVal r "UnitPrice")) ∧
    (iqrStep dfC6 "UnitPrice").rows.length = 4 := by
  have hxs : nonNA (colVals (mapCol dfC6 "UnitPrice" coerceNumVal) "UnitPrice") =
      [8, 9, 10, 11, 1000] := by decide
  have hq1 : quantileQ (1/4) (nonNA (colVals (mapCol dfC6 "UnitPrice" coerceNumVal)
      "UnitPrice")) = some 9 := by
    rw [hxs]; norm_num [quantileQ, sortQ, insertSorted]
  have hq3 : quantileQ (3/4) (nonNA (colVals (mapCol dfC6 "UnitPrice" coerceNumVal)
      "UnitPrice")) = some 11 := by
    rw [hxs]; norm_num [quantileQ, sortQ, insertSorted]; decide
  have h0 : (11 : ℚ) - 9 ≠ 0 := by norm_num
  have hmain := (c6_iqr_policy dfC6 "UnitPrice").2.2.1 9 11 hq1 hq3 h0
  refine ⟨hq1, hq3, h0, hmain.1, hmain.2, ?_⟩
  rw [hmain.2]
  norm_num
  decide

/-- C7 counterexample input: a resolved preferred-contact column holding
the null-placeholder token `"nan"` next to two `"Email"` values. -/
def dfC7 : DF :=
  ⟨["Preferred_Contact"],
   [[("Preferred_Contact", Val.str "nan")],
    [("Preferred_Contact", Val.str "Email")],
    [("Preferred_Contact", Val.str "Email")]]⟩

/-- Claim C7 (counterexample): on `dfC7` the claim demands the `"nan"`
token be treated as missing and filled with the mode `"Email"`; instead
the effective missing-value stage returns no row-set at all (the stub),
and even the shadowed first handler leaves the `"nan"` token in place. -/
theorem c7_null_tokens_survive :
    handle_missing_values_customers dfC7 = none ∧
    (handle_missing_values_customers_v1 dfC7).map (fun d => colVals d "Preferred_Contact") =
      some [Val.str "nan", Val.str "Email", Val.str "Email"] :=
  ⟨rfl, by decide⟩

/-- Claim C7 (amended): the effective missing-value stage returns Python
`None`, so no preferred-contact handling happens at all; under the
shadowed first handler the resolved preferred-contact column is exactly
`astype(str)` followed by blank-to-missing (`^\s*$` only) followed by
mode fill — and a non-blank text cell always passes through the
blank-and-fill transformation unchanged, so the tokens `"nan"`,
`"none"`, `"n/a"` are ordinary values, never treated as missing. -/
theorem c7_preferred_contact_policy (df : DF) (c : String) (out : DF) :
    handle_missing_values_customers df = none ∧
    (pcCol df = some c → handle_missing_values_customers_v1 df = some out →
      colVals out c =
        match modeVal ((colVals df c).map (fun v => blankToNA (Val.str (valToPyStr v)))) with
        | some m =>
            ((colVals df c).map (fun v => blankToNA (Val.str (valToPyStr v)))).map (fillNA m)
        | none => (colVals df c).map (fun v => blankToNA (Val.str (valToPyStr v)))) ∧
    (∀ s m, isBlankStr s = false → fillNA m (blankToNA (Val.str s)) = Val.str s) := by
  refine ⟨rfl, ?_, ?_⟩
  · intro hpc hout
    have hc : c = "Preferred_Contact" ∨ c = "Preferred Contact" := by
      unfold pcCol at hpc
      split_ifs at hpc
      · exact Or.inl (Option.some.inj hpc).symm
      · exact Or.inr (Option.some.inj hpc).symm
    have hMP : "MemberPoints" ≠ c := by rcases hc with h | h <;> subst h <;> decide
    have hMS : "MemberStatus" ≠ c := by rcases hc with h | h <;> subst h <;> decide
    have hout2 : out = hmvPreferredContact (hmvMemberStatus (hmvMemberPoints df)) :=
      (Option.some.inj hout).symm
    subst hout2
    have epc : pcCol (hmvMemberStatus (hmvMemberPoints df)) = some c := by
      rw [pcCol_congr (hmvMemberStatus (hmvMemberPoints df)) df
        (by rw [cols_hmvMemberStatus, cols_hmvMemberPoints]), hpc]
    rw [hmvPreferredContact_colVals _ c epc, colVals_hmvMemberStatus_ne _ c hMS,
      colVals_hmvMemberPoints_ne _ c hMP]
  · intro s m hs
    simp [blankToNA, hs, fillNA]

/-- Witness for the amended C7: at `dfC7` (where the shadowed handler's
output column equals its input column) the characterization holds with
the mode being `"Email"`. -/
theorem c7_preferred_contact_policy_witness :
    colVals dfC7 "Preferred_Contact" =
      match modeVal ((colVals dfC7 "Preferred_Contact").map
          (fun v => blankToNA (Val.str (valToPyStr v)))) with
      | some m =>
          ((colVals dfC7 "Preferred_Contact").map
            (fun v => blankToNA (Val.str (valToPyStr v)))).map (fillNA m)
      | none => (colVals dfC7 "Preferred_Contact").map
          (fun v => blankToNA (Val.str (valToPyStr v))) :=
  (c7_preferred_contact_policy dfC7 "Preferred_Contact" dfC7).2.1 (by decide) (by decide)

/-- C10 counterexample input: a sales row-set whose `SaleAmount` column
holds one missing value and one non-negative value — no negatives. -/
def dfC10 : DF :=
  ⟨["SaleAmount"], [[("SaleAmount", Val.na)], [("SaleAmount", Val.num 5)]]⟩

/-- A product row-set of the same shape for the products-side witness. -/
def dfC10P : DF := ⟨["UnitPrice"], [[("UnitPrice", Val.na)], [("UnitPrice", Val.num 5)]]⟩

/-- The surviving product row of `dfC10P` after validation. -/
def rowC10 : Row := [("UnitPrice", Val.num 5)]

/-- Claim C10 (counterexample): on a sales row-set with a missing
`SaleAmount` and no negative value, `validate_data` of `prepare_sales.py`
keeps both rows — the row with the missing constrained field survives,
contradicting the claim that such rows are always dropped. -/
theorem c10_sales_missing_value_survives :
    (validate_data_sales dfC10).rows.length = 2 ∧
    getVal ((validate_data_sales dfC10).rows.getD 0 []) "SaleAmount" = Val.na := by
  refine ⟨by decide, by decide⟩

/-- Claim C10 (amended): in the product pipeline every surviving row
carries a numeric, non-negative value in each validated column (so rows
with missing or non-coercible `UnitPrice`/`Price` are indeed dropped);
in the sales pipeline the `value >= 0` filter is guarded by a count of
strictly negative values, so when the coerced column has no negative
value the step keeps every row (missing values survive), and only when a
negative exists does the filter run, then dropping missing values too.
The final conjuncts tie the two pipeline `validate_data` functions to
their per-column steps in source order. -/
theorem c10_validation_policy (df : DF) (col : String) (r : Row) :
    (col ∈ df.cols → r ∈ (validateStepProducts df col).rows →
      ∃ q, getVal r col = Val.num q ∧ 0 ≤ q) ∧
    (col ∈ df.cols → (mapCol df col coerceNumVal).rows.filter (negCell col) = [] →
      validateStepSales df col = mapCol df col coerceNumVal) ∧
    (col ∈ df.cols → (mapCol df col coerceNumVal).rows.filter (negCell col) ≠ [] →
      r ∈ (validateStepSales df col).rows → ∃ q, getVal r col = Val.num q ∧ 0 ≤ q) ∧
    validate_data_products df = validateStepProducts (validateStepProducts df "UnitPrice") "Price" ∧
    validate_data_sales df = validateStepSales (validateStepSales df "SaleAmount") "Quantity" := by
  refine ⟨?_, ?_, ?_, rfl, rfl⟩
  · intro hcol hr
    simp only [validateStepProducts, if_pos hcol, List.mem_filter] at hr
    obtain ⟨-, hk⟩ := hr
    unfold keepCell at hk
    cases hgv : getVal r col with
    | num q => rw [hgv] at hk; exact ⟨q, rfl, by simpa using hk⟩
    | na => rw [hgv] at hk; simp at hk
    | str s => rw [hgv] at hk; simp at hk
  · intro hcol hneg
    simp only [validateStepSales, if_pos hcol]
    rw [hneg]
    simp
  · intro hcol hneg hr
    have hlen : ((mapCol df col coerceNumVal).rows.filter (negCell col)).length ≠ 0 := by
      intro h
      exact hneg (List.length_eq_zero.mp h)
    simp only [validateStepSales, if_pos hcol, if_pos hlen, List.mem_filter] at hr
    obtain ⟨-, hk⟩ := hr
    unfold keepCell at hk
    cases hgv : getVal r col with
    | num q => rw [hgv] at hk; exact ⟨q, rfl, by simpa using hk⟩
    | na => rw [hgv] at hk; simp at hk
    | str s => rw [hgv] at hk; simp at hk

/-- Witness for the amended C10: the surviving product row of `dfC10P`
carries a non-negative number, and on `dfC10` (no negatives) the sales
step is exactly the in-place coercion, dropping nothing. -/
theorem c10_validation_policy_witness :
    (∃ q, getVal rowC10 "UnitPrice" = Val.num q ∧ 0 ≤ q) ∧
    validateStepSales dfC10 "SaleAmount" = mapCol dfC10 "SaleAmount" coerceNumVal :=
  ⟨(c10_validation_policy dfC10P "UnitPrice" rowC10).1 (by decide) (by decide),
   (c10_validation_policy dfC10 "SaleAmount" rowC10).2.1 (by decide) (by decide)⟩

/-- Claim C8 (counterexample): in `db01_setup.py` the delete-all
operation deletes the `customer` dimension strictly before the `sale`
fact table, so the fact table is not cleared first there. -/
theorem c8_db01_deletes_dimension_before_fact :
    ¬ (delete_existing_records_db01.indexOf "sale" <
       delete_existing_records_db01.indexOf "customer") := by
  decide

/-- Claim C8 (amended): the `etl_to_dw.py` delete-all clears the fact
table `fact_sales` before every dimension table, but the `db01_setup.py`
delete-all clears the dimensions `customer` and `product` first and the
fact table `sale` last. -/
theorem c8_delete_order_by_module :
    (delete_existing_records_etl.indexOf "fact_sales" <
       delete_existing_records_etl.indexOf "dim_customer" ∧
     delete_existing_records_etl.indexOf "fact_sales" <
       delete_existing_records_etl.indexOf "dim_product" ∧
     delete_existing_records_etl.indexOf "fact_sales" <
       delete_existing_records_etl.indexOf "dim_store" ∧
     delete_existing_records_etl.indexOf "fact_sales" <
       delete_existing_records_etl.indexOf "dim_date") ∧
    (delete_existing_records_db01.indexOf "customer" <
       delete_existing_records_db01.indexOf "sale" ∧
     delete_existing_records_db01.indexOf "product" <
       delete_existing_records_db01.indexOf "sale") := by
  decide

/-- Claim C9: presentation finalization is idempotent — for every
row-set, applying `finalize_presentation` of the product pipeline
(`UnitPrice`) or of the sales pipeline (`SaleAmount`, `PercentDiscount`,
`SaleFinal`) twice yields exactly the same fixed two-decimal text values
as applying it once (the rendered string parses back to the same number,
which rounds and renders to the same string). -/
theorem c9_finalize_idempotent (df : DF) :
    finalize_presentation_products (finalize_presentation_products df) =
      finalize_presentation_products df ∧
    finalize_presentation_sales (finalize_presentation_sales df) =
      finalize_presentation_sales df := by
  constructor
  · unfold finalize_presentation_products
    by_cases h : "UnitPrice" ∈ df.cols
    · rw [if_pos h, if_pos (show "UnitPrice" ∈ (mapCol df "UnitPrice" finalizeCell).cols from h)]
      have hg : ∀ r : Row, setVal (setVal r "UnitPrice" (finalizeCell (getVal r "UnitPrice")))
          "UnitPrice" (finalizeCell (getVal (setVal r "UnitPrice"
            (finalizeCell (getVal r "UnitPrice"))) "UnitPrice")) =
          setVal r "UnitPrice" (finalizeCell (getVal r "UnitPrice")) := by
        intro r
        rw [getVal_setVal_self, setVal_setVal_self, finalizeCell_idem]
      simp only [mapCol, List.map_map, Function.comp_def]
      simp only [hg]
    · rw [if_neg h, if_neg h]
  · unfold finalize_presentation_sales
    rw [finalize_sales_foldl_char salesMoneyCols df]
    rw [finalize_sales_foldl_char salesMoneyCols
      ⟨df.cols, df.rows.map (applyCols (salesMoneyCols.filter (fun c => c ∈ df.cols))
        finalizeCell)⟩]
    dsimp only
    have hnod : (salesMoneyCols.filter (fun c => c ∈ df.cols)).Nodup :=
      List.Nodup.filter _ (by decide)
    have hAA : ∀ r : Row,
        applyCols (salesMoneyCols.filter (fun c => c ∈ df.cols)) finalizeCell
          (applyCols (salesMoneyCols.filter (fun c => c ∈ df.cols)) finalizeCell r) =
        applyCols (salesMoneyCols.filter (fun c => c ∈ df.cols)) finalizeCell r :=
      applyCols_idem _ finalizeCell finalizeCell_idem hnod
    simp only [List.map_map, Function.comp_def]
    simp only [hAA]


end SmartStore
